import Mathlib

/-!
Verification of the threading library: a shallow embedding of the
future/promise cell (src/future.rs), the wait_all and wait_any combinators,
the defer scope (src/async.rs), the double-buffered Atom (src/atom.rs) and
the read-only-capable Spinlock (src/spinlock.rs), with theorems about the
behaviour of each operation.  Operations guarded by the internal spinlock
execute atomically with respect to each other, so each is embedded as a
function on the cell state; a blocking wait is rendered as returning none.
-/

variable {T C V F J R : Type}

/- ---------------------------------------------------------------------
Future / Promise cell, from src/future.rs (struct FutureState, lines
107-127).  Callbacks are boxed closures in the source; the embedding keeps
them as opaque tokens of type C, and an operation that invokes callbacks
returns the list of tokens it invoked, in invocation order.
--------------------------------------------------------------------- -/

/-- FutureState (future.rs:107-113): the optional value, the ordered
callback list, and the optional ready event with its signaled flag
(ready_event = some b models an installed Event whose flag is b). -/
structure FutureState (T : Type) (C : Type) where
  value : Option T
  callbacks : List C
  ready_event : Option Bool

/-- FutureState::default (future.rs:129-137): the empty cell that
Promise::new (future.rs:162-165) allocates. -/
def FutureState.default : FutureState T C :=
  { value := none, callbacks := [], ready_event := none }

/-- FutureState::new (future.rs:116-122), used by Future::new
(future.rs:186-190): a cell pre-filled with a value. -/
def FutureState.new (v : T) : FutureState T C :=
  { value := some v, callbacks := [], ready_event := none }

/-- Promise::set (future.rs:167-182): under the lock, store the value and
drain the callback list; then signal the ready event if one was installed,
and invoke each drained callback, in order, with the value.  The second
component is the list of callbacks invoked by this call, in invocation
order.  Note the store is unconditional: the body contains no check that
the cell is still empty. -/
def Promise.set (s : FutureState T C) (v : T) : FutureState T C × List C :=
  ({ value := some v, callbacks := [],
     ready_event := s.ready_event.map (fun _ => true) },
   s.callbacks)

/-- Future::subscribe (future.rs:223-237): under the lock, if the value is
absent push the callback onto the list; otherwise drop the lock and invoke
the callback inline with the value.  The second component is the list of
callbacks invoked inline by this call. -/
def Future.subscribe (s : FutureState T C) (f : C) : FutureState T C × List C :=
  match s.value with
  | none => ({ s with callbacks := s.callbacks ++ [f] }, [])
  | some _ => (s, [f])

/-- Future::wait (future.rs:239-249): under the lock, install a fresh
(unsignaled) event if neither an event nor a value is present; then wait on
the event if one is present, and return the value.  A call that blocks on
an unsignaled event (or would unwrap an absent value) returns none. -/
def Future.wait (s : FutureState T C) : FutureState T C × Option T :=
  let s1 := if s.ready_event.isNone && s.value.isNone then
              { s with ready_event := some false }
            else s
  match s1.ready_event with
  | some false => (s1, none)
  | _ => (s1, s1.value)

/-- Future::take (future.rs:192-194): under the lock, Option::take on the
value — return it and leave none behind.  There is no separate Moved
marker and no fatal branch in the body. -/
def Future.take (s : FutureState T C) : FutureState T C × Option T :=
  ({ s with value := none }, s.value)

/-- Registering a list of callbacks one after another with
Future::subscribe, collecting the inline invocations of each call. -/
def subscribeAll (s : FutureState T C) : List C → FutureState T C × List C
  | [] => (s, [])
  | f :: rest =>
    let p := Future.subscribe s f
    let q := subscribeAll p.1 rest
    (q.1, p.2 ++ q.2)

/-- An unresolved cell with an arbitrary callback list and event slot. -/
def unresolvedCell (cs : List C) (e : Option Bool) : FutureState T C :=
  { value := none, callbacks := cs, ready_event := e }

/- ---------------------------------------------------------------------
Ownership-level trace model of the public interface, for the single
assignment argument (future.rs:161-183).  Promise::new creates exactly one
Promise handle per cell, and Promise::set takes the Promise by value, so a
set on cell i is only possible while the unique promise for i is alive,
and it consumes that promise.
--------------------------------------------------------------------- -/

/-- The public operations that create or resolve cells: Promise::new
(future.rs:162-165), Future::new (future.rs:186-190), and Promise::set on
the promise of cell i (future.rs:167-182). -/
inductive ApiOp (V : Type) where
  | newPair : ApiOp V
  | futureNew : V → ApiOp V
  | set : Nat → V → ApiOp V

/-- Cells indexed by creation order, with alive i = the unique Promise for
cell i has not yet been consumed by set. -/
structure ProgState (V : Type) where
  cells : List (Option V)
  alive : List Bool

/-- The initial program state: no cells, no promises. -/
def ProgState.init : ProgState V := { cells := [], alive := [] }

/-- Effect of one public operation.  newPair appends an empty cell whose
promise is alive; futureNew appends a pre-filled cell with no promise; set
i v stores v in cell i and consumes the promise — it can only happen while
that promise is alive, since set takes the Promise by value. -/
def applyOp (s : ProgState V) : ApiOp V → ProgState V
  | ApiOp.newPair => { cells := s.cells ++ [none], alive := s.alive ++ [true] }
  | ApiOp.futureNew v => { cells := s.cells ++ [some v], alive := s.alive ++ [false] }
  | ApiOp.set i v =>
      if s.alive.getD i false = true then
        { cells := s.cells.set i (some v), alive := s.alive.set i false }
      else s

/-- Number of set operations in the trace that actually resolve cell i
(those issued while the promise for i is alive). -/
def countSets (s : ProgState V) : List (ApiOp V) → Nat → Nat
  | [], _ => 0
  | op :: rest, i =>
      (match op with
       | ApiOp.set j _ => if j = i ∧ s.alive.getD j false = true then 1 else 0
       | _ => 0) + countSets (applyOp s op) rest i

/- ---------------------------------------------------------------------
wait_all (future.rs:277-291) and the Waiter finalizer (future.rs:252-275).
The shared state is the strong count of the Arc around the Waiter and the
number of times the Waiter ran its on_destroy action (promise.set(())).
wait_all makes one Arc plus one clone per input future; each input
resolution drops one clone, and wait_all itself drops the original when it
returns; the Waiter fires when the last reference is dropped.
--------------------------------------------------------------------- -/

/-- Arc<Waiter> shared state: refs is the strong count, fired the number
of times Waiter::drop (future.rs:269-275) ran the aggregate promise. -/
structure WaiterArc where
  refs : Nat
  fired : Nat

/-- Dropping one Arc<Waiter> reference: the last drop runs Waiter::drop,
which calls on_destroy, i.e. promise.set(()). -/
def WaiterArc.dropRef (s : WaiterArc) : WaiterArc :=
  if s.refs = 1 then { refs := 0, fired := s.fired + 1 }
  else { refs := s.refs - 1, fired := s.fired }

/-- The Arc state after wait_all over n input futures has subscribed to
each of them: Arc::new contributes one reference and each of the n clones
one more (future.rs:282-289). -/
def waitAllArc (n : Nat) : WaiterArc := { refs := 1 + n, fired := 0 }

/- ---------------------------------------------------------------------
wait_any (future.rs:293-309): a Mutex-guarded Option<Promise> claim slot;
each input resolution takes the slot, the winner sets the aggregate
promise, the others find the slot empty.
--------------------------------------------------------------------- -/

/-- wait_any shared state: slot is whether the claim slot still holds the
aggregate promise, fired the number of times that promise was set. -/
structure AnyPromiseSlot where
  slot : Bool
  fired : Nat

/-- The slot as wait_any creates it, holding the aggregate promise. -/
def waitAnySlot : AnyPromiseSlot := { slot := true, fired := 0 }

/-- One input future resolving: its subscribe callback locks the slot and
Option::take-s it; only a caller that got the promise sets it
(future.rs:301-306). -/
def AnyPromiseSlot.resolveOne (s : AnyPromiseSlot) : AnyPromiseSlot :=
  if s.slot then { slot := false, fired := s.fired + 1 } else s

/- ---------------------------------------------------------------------
DeferScope and enter, from src/async.rs (lines 8-61).  Deferred closures
and thread-join handles are opaque tokens; running the drained actions is
rendered as returning the list of actions in execution order.
--------------------------------------------------------------------- -/

/-- An action held in DeferScope::to_run: either a plain deferred closure
(registered by defer, async.rs:14-16) or the join of a spawned thread
(registered by spawn, async.rs:18-29). -/
inductive ScopeAction (F J : Type) where
  | run : F → ScopeAction F J
  | joinThread : J → ScopeAction F J

/-- DeferScope (async.rs:8-11): the ordered list of deferred actions. -/
structure DeferScope (F J : Type) where
  to_run : List (ScopeAction F J)

/-- DeferScope::defer (async.rs:14-16): push the closure onto to_run. -/
def DeferScope.defer (s : DeferScope F J) (f : F) : DeferScope F J :=
  { to_run := s.to_run ++ [ScopeAction.run f] }

/-- DeferScope::spawn (async.rs:18-29): start the thread and defer joining
it; the registered action is the join of that thread. -/
def DeferScope.spawn (s : DeferScope F J) (j : J) : DeferScope F J :=
  { to_run := s.to_run ++ [ScopeAction.joinThread j] }

/-- A registration the body performs on the scope: a defer or a spawn
(scope.async spawns too, async.rs:31-40, so it registers a join). -/
inductive Reg (F J : Type) where
  | defer : F → Reg F J
  | spawn : J → Reg F J

/-- Apply one registration to the scope. -/
def applyReg (s : DeferScope F J) : Reg F J → DeferScope F J
  | Reg.defer f => s.defer f
  | Reg.spawn j => s.spawn j

/-- The action a registration leaves in to_run. -/
def regAction : Reg F J → ScopeAction F J
  | Reg.defer f => ScopeAction.run f
  | Reg.spawn j => ScopeAction.joinThread j

/-- DeferScope::drop (async.rs:43-51): drain to_run and run every action
in order; the result is the executed actions in execution order. -/
def DeferScope.drop (s : DeferScope F J) : List (ScopeAction F J) :=
  s.to_run

/-- enter (async.rs:53-61): run the body on a fresh empty scope; when the
body is done the scope is dropped, which runs the deferred actions.  The
result is the body result paired with the executed actions in order. -/
def enter (body : DeferScope F J → R × DeferScope F J) :
    R × List (ScopeAction F J) :=
  let p := body { to_run := [] }
  (p.1, DeferScope.drop p.2)

/- ---------------------------------------------------------------------
Atom, from src/atom.rs.  The two slots, the index counter (a wrapping
usize), and the micro-steps of store: store takes the writer lock, calls
switch() FIRST and then writes into data[get_idx()] — the slot the flipped
index selects (atom.rs:31-37).
--------------------------------------------------------------------- -/

/-- Atom (atom.rs:6-10): the two Option slots and the index counter.  The
writer serialization lock adds no state visible here. -/
structure AtomState (T : Type) where
  slot0 : Option T
  slot1 : Option T
  current : Nat

/-- Atom::new (atom.rs:13-20): slot 0 holds the value, counter 0. -/
def Atom.new (v : T) : AtomState T :=
  { slot0 := some v, slot1 := none, current := 0 }

/-- data[i] with the two-element array indexed by i mod 2. -/
def AtomState.dataAt (s : AtomState T) (i : Nat) : Option T :=
  if i % 2 = 0 then s.slot0 else s.slot1

/-- Atom::get_idx (atom.rs:39-41): current mod 2. -/
def Atom.get_idx (s : AtomState T) : Nat := s.current % 2

/-- Atom::switch (atom.rs:43-45): fetch_add(1) on the wrapping usize. -/
def Atom.switch (s : AtomState T) : AtomState T :=
  { s with current := (s.current + 1) % 2 ^ 64 }

/-- Writing a value into slot i (the write-locked swap, atom.rs:34-36). -/
def Atom.writeSlot (s : AtomState T) (i : Nat) (v : T) : AtomState T :=
  if i % 2 = 0 then { s with slot0 := some v } else { s with slot1 := some v }

/-- Atom::store (atom.rs:31-37): take the writer lock, switch() first,
then write into data[get_idx()] of the post-switch state. -/
def Atom.store (s : AtomState T) (v : T) : AtomState T :=
  let s1 := Atom.switch s
  Atom.writeSlot s1 (Atom.get_idx s1) v

/-- Atom::load (atom.rs:22-25): read data[get_idx()] — the source unwraps
the Option, so a none here is a reader panic. -/
def Atom.load (s : AtomState T) : Option T :=
  AtomState.dataAt s (Atom.get_idx s)

/- ---------------------------------------------------------------------
Spinlock, from src/spinlock.rs (lines 7-81).  The sequential small-step
semantics: each state records the locked flag, the read_only flag, and the
number of outstanding SpinlockGuards.
--------------------------------------------------------------------- -/

/-- Result of Spinlock::lock (spinlock.rs:55-70) on a state: take() is a
CAS loop that succeeds immediately when unlocked, and inside the loop
returns false — so lock returns None — once read_only is observed;
otherwise it keeps spinning. -/
inductive LockOutcome where
  | acquired : LockOutcome
  | unavailable : LockOutcome
  | spins : LockOutcome

/-- Spinlock observable state: locked and read_only flags plus the number
of live SpinlockGuards (each guard clears locked when dropped,
spinlock.rs:22-26). -/
structure SpinState where
  locked : Bool
  read_only : Bool
  guards : Nat

/-- Outcome of a lock() call in a given state, per take()
(spinlock.rs:55-62): CAS success when unlocked (acquired), else the
read-only check (unavailable), else another spin iteration. -/
def Spinlock.lockOutcome (s : SpinState) : LockOutcome :=
  if s.locked = false then LockOutcome.acquired
  else if s.read_only = true then LockOutcome.unavailable
  else LockOutcome.spins

/-- Whether share() (spinlock.rs:73-81) would enter the busy-wait loop of
take(): only when read_only is not yet set and the lock is held. -/
def Spinlock.shareSpins (s : SpinState) : Bool :=
  !s.read_only && s.locked

/-- Atomic steps of the Spinlock API.  lockAcq is a successful CAS in
take() creating a guard; unlock is a guard drop storing locked := false;
shareFast is share() on an already read-only lock (no state change);
shareSlow is share() completing its take() — its CAS requires the lock
free — and then setting read_only, never releasing the lock. -/
inductive SpinStep : SpinState → SpinState → Prop where
  | lockAcq (s : SpinState) : s.locked = false →
      SpinStep s { locked := true, read_only := s.read_only, guards := s.guards + 1 }
  | unlock (s : SpinState) : 0 < s.guards →
      SpinStep s { locked := false, read_only := s.read_only, guards := s.guards - 1 }
  | shareFast (s : SpinState) : s.read_only = true → SpinStep s s
  | shareSlow (s : SpinState) : s.read_only = false → s.locked = false →
      SpinStep s { locked := true, read_only := true, guards := s.guards }

/-- States reachable from Spinlock::new (spinlock.rs:43-49). -/
inductive SpinReach : SpinState → Prop where
  | init : SpinReach { locked := false, read_only := false, guards := 0 }
  | step {s s1 : SpinState} : SpinReach s → SpinStep s s1 → SpinReach s1

/-- Invariant of reachable spinlock states: read-only mode keeps the lock
word permanently taken with no guard outstanding; at most one guard; an
unlocked lock has no guard. -/
def SpinInv (s : SpinState) : Prop :=
  (s.read_only = true → s.locked = true ∧ s.guards = 0) ∧
  s.guards ≤ 1 ∧
  (s.locked = false → s.guards = 0)

/- ---------------------------------------------------------------------
Helper lemmas.
--------------------------------------------------------------------- -/

lemma subscribeAll_unresolved (fs : List C) (cs : List C) (e : Option Bool) :
    subscribeAll (unresolvedCell cs e : FutureState T C) fs
      = (unresolvedCell (cs ++ fs) e, []) := by
  induction fs generalizing cs with
  | nil => simp [subscribeAll]
  | cons f rest ih =>
    have h1 : Future.subscribe (unresolvedCell cs e : FutureState T C) f
        = (unresolvedCell (cs ++ [f]) e, []) := rfl
    simp [subscribeAll, h1, ih (cs ++ [f])]

lemma getD_true_lt (l : List Bool) (i : Nat) (h : l.getD i false = true) :
    i < l.length := by
  by_contra hlt
  rw [List.getD_eq_default l false (Nat.le_of_not_lt hlt)] at h
  simp at h


lemma alive_dead_applyOp (s : ProgState V) (op : ApiOp V) (i : Nat)
    (hlen : i < s.alive.length) (hdead : s.alive.getD i false = false) :
    i < (applyOp s op).alive.length ∧ (applyOp s op).alive.getD i false = false := by
  cases op with
  | newPair =>
    constructor
    · show i < (s.alive ++ [true]).length
      rw [List.length_append]
      omega
    · show (s.alive ++ [true]).getD i false = false
      rw [List.getD_append _ _ _ _ hlen]
      exact hdead
  | futureNew v =>
    constructor
    · show i < (s.alive ++ [false]).length
      rw [List.length_append]
      omega
    · show (s.alive ++ [false]).getD i false = false
      rw [List.getD_append _ _ _ _ hlen]
      exact hdead
  | set j v =>
    by_cases halive : s.alive.getD j false = true
    · show i < (if s.alive.getD j false = true then
            ({ cells := s.cells.set j (some v), alive := s.alive.set j false } : ProgState V)
          else s).alive.length ∧
          (if s.alive.getD j false = true then
            ({ cells := s.cells.set j (some v), alive := s.alive.set j false } : ProgState V)
          else s).alive.getD i false = false
      rw [if_pos halive]
      constructor
      · show i < (s.alive.set j false).length
        rw [List.length_set]
        exact hlen
      · show (s.alive.set j false).getD i false = false
        rw [List.getD_eq_getElem?_getD, List.getElem?_set]
        by_cases hj : j = i
        · subst hj
          by_cases hjl : j < s.alive.length <;> simp [hjl]
        · rw [if_neg hj, ← List.getD_eq_getElem?_getD]
          exact hdead
    · show i < (if s.alive.getD j false = true then
            ({ cells := s.cells.set j (some v), alive := s.alive.set j false } : ProgState V)
          else s).alive.length ∧
          (if s.alive.getD j false = true then
            ({ cells := s.cells.set j (some v), alive := s.alive.set j false } : ProgState V)
          else s).alive.getD i false = false
      rw [if_neg halive]
      exact ⟨hlen, hdead⟩

lemma countSets_dead (ops : List (ApiOp V)) :
    ∀ (s : ProgState V) (i : Nat), i < s.alive.length →
      s.alive.getD i false = false → countSets s ops i = 0 := by
  induction ops with
  | nil =>
    intro s i _ _
    rfl
  | cons op rest ih =>
    intro s i hlen hdead
    have hstep := alive_dead_applyOp s op i hlen hdead
    have hrest := ih (applyOp s op) i hstep.1 hstep.2
    cases op with
    | newPair =>
      show 0 + countSets (applyOp s ApiOp.newPair) rest i = 0
      rw [hrest]
    | futureNew v =>
      show 0 + countSets (applyOp s (ApiOp.futureNew v)) rest i = 0
      rw [hrest]
    | set j v =>
      have hc : ¬ (j = i ∧ s.alive.getD j false = true) := by
        rintro ⟨rfl, hj⟩
        rw [hdead] at hj
        simp at hj
      show (if j = i ∧ s.alive.getD j false = true then 1 else 0)
          + countSets (applyOp s (ApiOp.set j v)) rest i = 0
      rw [if_neg hc, hrest]

lemma countSets_le_one (ops : List (ApiOp V)) :
    ∀ (s : ProgState V) (i : Nat), countSets s ops i ≤ 1 := by
  induction ops with
  | nil =>
    intro s i
    show (0 : Nat) ≤ 1
    omega
  | cons op rest ih =>
    intro s i
    cases op with
    | newPair =>
      show 0 + countSets (applyOp s ApiOp.newPair) rest i ≤ 1
      have := ih (applyOp s ApiOp.newPair) i
      omega
    | futureNew v =>
      show 0 + countSets (applyOp s (ApiOp.futureNew v)) rest i ≤ 1
      have := ih (applyOp s (ApiOp.futureNew v)) i
      omega
    | set j v =>
      by_cases hc : j = i ∧ s.alive.getD j false = true
      · obtain ⟨rfl, halive⟩ := hc
        have hlen : j < s.alive.length := getD_true_lt _ _ halive
        have h1 : (applyOp s (ApiOp.set j v)).alive = s.alive.set j false := by
          show (if s.alive.getD j false = true then
              ({ cells := s.cells.set j (some v), alive := s.alive.set j false } : ProgState V)
            else s).alive = s.alive.set j false
          rw [if_pos halive]
        have hlen2 : j < (applyOp s (ApiOp.set j v)).alive.length := by
          rw [h1, List.length_set]
          exact hlen
        have hdead2 : (applyOp s (ApiOp.set j v)).alive.getD j false = false := by
          rw [h1, List.getD_eq_getElem?_getD, List.getElem?_set]
          simp [hlen]
        have hrest := countSets_dead rest _ j hlen2 hdead2
        show (if j = j ∧ s.alive.getD j false = true then 1 else 0)
            + countSets (applyOp s (ApiOp.set j v)) rest j ≤ 1
        rw [if_pos ⟨rfl, halive⟩, hrest]
      · show (if j = i ∧ s.alive.getD j false = true then 1 else 0)
            + countSets (applyOp s (ApiOp.set j v)) rest i ≤ 1
        rw [if_neg hc]
        have := ih (applyOp s (ApiOp.set j v)) i
        omega

lemma dropRef_iterate_lt (d : Nat) :
    ∀ (c f : Nat), d < c →
      WaiterArc.dropRef^[d] { refs := c, fired := f } = { refs := c - d, fired := f } := by
  induction d with
  | zero =>
    intro c f _
    simp
  | succ d ih =>
    intro c f hd
    rw [Function.iterate_succ_apply]
    have hc : ¬ (c = 1) := by omega
    have h1 : WaiterArc.dropRef { refs := c, fired := f } = { refs := c - 1, fired := f } := by
      show (if c = 1 then ({ refs := 0, fired := f + 1 } : WaiterArc)
          else { refs := c - 1, fired := f }) = _
      rw [if_neg hc]
    rw [h1, ih (c - 1) f (by omega)]
    have h2 : c - 1 - d = c - (d + 1) := by omega
    rw [h2]

lemma dropRef_iterate_exact :
    ∀ (c f : Nat), 1 ≤ c →
      WaiterArc.dropRef^[c] { refs := c, fired := f } = { refs := 0, fired := f + 1 } := by
  intro c
  induction c with
  | zero =>
    intro f h
    exact absurd h (by omega)
  | succ c ih =>
    intro f _
    by_cases hc : c = 0
    · subst hc
      show WaiterArc.dropRef { refs := 1, fired := f } = { refs := 0, fired := f + 1 }
      rfl
    · rw [Function.iterate_succ_apply]
      have hne : ¬ (c + 1 = 1) := by omega
      have h1 : WaiterArc.dropRef { refs := c + 1, fired := f } = { refs := c, fired := f } := by
        show (if c + 1 = 1 then ({ refs := 0, fired := f + 1 } : WaiterArc)
            else { refs := c + 1 - 1, fired := f }) = _
        rw [if_neg hne]
        rfl
      rw [h1]
      exact ih f (by omega)

lemma resolveOne_iterate_empty (m : Nat) (f : Nat) :
    AnyPromiseSlot.resolveOne^[m] { slot := false, fired := f }
      = { slot := false, fired := f } := by
  induction m with
  | zero => simp
  | succ m ih =>
    rw [Function.iterate_succ_apply]
    have h1 : AnyPromiseSlot.resolveOne { slot := false, fired := f }
        = { slot := false, fired := f } := rfl
    rw [h1, ih]

lemma foldl_applyReg_to_run (regs : List (Reg F J)) :
    ∀ s : DeferScope F J,
      (regs.foldl applyReg s).to_run = s.to_run ++ regs.map regAction := by
  induction regs with
  | nil =>
    intro s
    simp
  | cons r rest ih =>
    intro s
    cases r with
    | defer f => simp [List.foldl_cons, ih, applyReg, DeferScope.defer, regAction]
    | spawn j => simp [List.foldl_cons, ih, applyReg, DeferScope.spawn, regAction]

lemma spinInv_step {s s1 : SpinState} (hinv : SpinInv s) (hstep : SpinStep s s1) :
    SpinInv s1 := by
  obtain ⟨hro, hg, hunlocked⟩ := hinv
  cases hstep with
  | lockAcq hfree =>
    refine ⟨?_, ?_, ?_⟩
    · intro h
      rcases hro h with ⟨hl, _⟩
      rw [hfree] at hl
      simp at hl
    · show s.guards + 1 ≤ 1
      have := hunlocked hfree
      omega
    · intro h
      simp at h
  | unlock hguards =>
    refine ⟨?_, ?_, ?_⟩
    · intro h
      rcases hro h with ⟨_, h0⟩
      omega
    · show s.guards - 1 ≤ 1
      omega
    · intro _
      show s.guards - 1 = 0
      omega
  | shareFast _ => exact ⟨hro, hg, hunlocked⟩
  | shareSlow hro2 hfree =>
    refine ⟨fun _ => ⟨rfl, hunlocked hfree⟩, hg, ?_⟩
    intro h
    simp at h

lemma spinReach_inv {s : SpinState} (h : SpinReach s) : SpinInv s := by
  induction h with
  | init => exact ⟨by simp, by decide, fun _ => rfl⟩
  | step _ hstep ih => exact spinInv_step ih hstep

/- ---------------------------------------------------------------------
Claim theorems.
--------------------------------------------------------------------- -/

/-- C1: resolving the cell with Promise.set v and then calling Future.wait
returns v, from any prior cell state; a cell pre-filled by Future::new
also waits to v; and wait yields a value only when the cell already holds
exactly that value, so wait never returns before the cell is resolved. -/
theorem set_then_wait_returns (s : FutureState T C) (v : T) :
    (Future.wait (Promise.set s v).1).2 = some v ∧
    (Future.wait (FutureState.new v : FutureState T C)).2 = some v ∧
    (∀ (t : FutureState T C) (w : T), (Future.wait t).2 = some w → t.value = some w) := by
  refine ⟨?_, rfl, ?_⟩
  · cases h : s.ready_event with
    | none => simp [Promise.set, Future.wait, h]
    | some b => simp [Promise.set, Future.wait, h]
  · intro t w hw
    rcases hv : t.value with _ | a
    · rcases hre : t.ready_event with _ | b
      · simp [Future.wait, hv, hre] at hw
      · cases b <;> simp [Future.wait, hv, hre] at hw
    · rcases hre : t.ready_event with _ | b
      · simpa [Future.wait, hv, hre] using hw
      · cases b
        · simp [Future.wait, hv, hre] at hw
        · simpa [Future.wait, hv, hre] using hw

/-- C1 witness: the theorem applied to a concrete cell and value. -/
theorem set_then_wait_returns_witness :
    (FutureState.new 3 : FutureState Nat Nat).value = some 3 :=
  (set_then_wait_returns (FutureState.default : FutureState Nat Nat) 0).2.2
    (FutureState.new 3) 3 rfl

/-- C2 counterexample: Promise.set applied to a cell that already holds 1
silently stores 2 and completes normally — set has no fatal rejection
path for an already-resolved cell. -/
theorem set_on_resolved_overwrites :
    ((Promise.set (FutureState.new 1 : FutureState Nat Nat) 2).1).value = some 2 := rfl

/-- C2 amended: set stores unconditionally — its body has no
already-resolved check, so applied to a resolved cell it overwrites — and
the double set it would take to reach that is impossible through the
public interface, because set consumes the unique Promise of its cell: in
every trace of public operations each cell is resolved at most once. -/
theorem promise_set_no_runtime_check (s : FutureState T C) (v : T) :
    ((Promise.set s v).1).value = some v ∧
    (∀ (ops : List (ApiOp Nat)) (i : Nat), countSets ProgState.init ops i ≤ 1) :=
  ⟨rfl, fun ops i => countSets_le_one ops ProgState.init i⟩

/-- C3: callbacks registered through subscribe on an unresolved cell are
stored in registration order with none invoked inline; the later set
invokes exactly the stored callbacks, in registration order, as part of
the set call; and a subscribe performed after the cell is resolved invokes
its callback exactly once, inline, leaving the cell unchanged. -/
theorem subscribe_callback_order (cs fs : List C) (e : Option Bool) (v : T) (g : C) :
    (subscribeAll (unresolvedCell cs e : FutureState T C) fs).2 = [] ∧
    (subscribeAll (unresolvedCell cs e : FutureState T C) fs).1.callbacks = cs ++ fs ∧
    (Promise.set (subscribeAll (unresolvedCell cs e : FutureState T C) fs).1 v).2 = cs ++ fs ∧
    (Future.subscribe (Promise.set (unresolvedCell cs e : FutureState T C) v).1 g).2 = [g] ∧
    (Future.subscribe (Promise.set (unresolvedCell cs e : FutureState T C) v).1 g).1
      = (Promise.set (unresolvedCell cs e : FutureState T C) v).1 := by
  have h := subscribeAll_unresolved (T := T) fs cs e
  refine ⟨?_, ?_, ?_, rfl, rfl⟩
  · rw [h]
  · rw [h]
    rfl
  · rw [h]
    rfl

/-- C4: the wait_all future fires exactly when all n inputs have resolved
and wait_all itself has returned, i.e. when all n + 1 references to the
shared Waiter have been dropped (k input resolutions plus the original
reference dropped at return when ret is true), and the aggregate promise
is set exactly once, by the drop that takes the reference count to zero;
order among the drops is immaterial, every drop being the same
decrement. -/
theorem wait_all_fires_iff (n k : Nat) (ret : Bool) (hk : k ≤ n) :
    (WaiterArc.dropRef^[k + cond ret 1 0] (waitAllArc n)).fired
        = (if k = n ∧ ret = true then 1 else 0) ∧
    (WaiterArc.dropRef^[k + cond ret 1 0] (waitAllArc n)).refs
        = 1 + n - (k + cond ret 1 0) := by
  cases ret with
  | false =>
    have hlt : k + cond false 1 0 < 1 + n := by
      show k + 0 < 1 + n
      omega
    rw [show waitAllArc n = { refs := 1 + n, fired := 0 } from rfl,
      dropRef_iterate_lt _ _ _ hlt]
    constructor
    · simp
    · rfl
  | true =>
    by_cases hkn : k = n
    · subst hkn
      have he : k + cond true 1 0 = 1 + k := by
        show k + 1 = 1 + k
        omega
      rw [show waitAllArc k = { refs := 1 + k, fired := 0 } from rfl, he,
        dropRef_iterate_exact (1 + k) 0 (by omega)]
      constructor
      · simp
      · show (0 : Nat) = 1 + k - (1 + k)
        omega
    · have hlt : k + cond true 1 0 < 1 + n := by
        show k + 1 < 1 + n
        omega
      rw [show waitAllArc n = { refs := 1 + n, fired := 0 } from rfl,
        dropRef_iterate_lt _ _ _ hlt]
      constructor
      · simp [hkn]
      · rfl

/-- C4 witness: two inputs, both resolved, wait_all returned — the
aggregate fired exactly once. -/
theorem wait_all_fires_iff_witness :
    (WaiterArc.dropRef^[2 + cond true 1 0] (waitAllArc 2)).fired
      = (if 2 = 2 ∧ true = true then 1 else 0) :=
  (wait_all_fires_iff 2 2 true (by decide)).1

/-- C5: with the claim slot initially holding the aggregate promise, any
sequence of k ≥ 1 input resolutions fires the aggregate promise exactly
once; the first resolution takes the promise and fires it, and every
later resolution finds the slot empty and changes nothing. -/
theorem wait_any_first_wins (k : Nat) (hk : 1 ≤ k) :
    AnyPromiseSlot.resolveOne^[k] waitAnySlot = { slot := false, fired := 1 } ∧
    AnyPromiseSlot.resolveOne waitAnySlot = { slot := false, fired := 1 } ∧
    (∀ s : AnyPromiseSlot, s.slot = false → AnyPromiseSlot.resolveOne s = s) := by
  refine ⟨?_, rfl, ?_⟩
  · obtain ⟨j, rfl⟩ : ∃ j, k = j + 1 := ⟨k - 1, by omega⟩
    rw [Function.iterate_succ_apply,
      show AnyPromiseSlot.resolveOne waitAnySlot = { slot := false, fired := 1 } from rfl,
      resolveOne_iterate_empty]
  · intro s hs
    show (if s.slot then ({ slot := false, fired := s.fired + 1 } : AnyPromiseSlot) else s) = s
    rw [hs]
    rfl

/-- C5 witness: three resolutions fire the aggregate exactly once. -/
theorem wait_any_first_wins_witness :
    AnyPromiseSlot.resolveOne^[3] waitAnySlot = { slot := false, fired := 1 } :=
  (wait_any_first_wins 3 (by decide)).1

/-- C6: enter runs the body on a fresh empty scope and returns its result,
and the actions the body registered — plain defers and the joins
registered by spawn (and hence scope.async) — are exactly the actions the
scope drop executes, in registration order, each once, after the body has
produced its result and before enter returns; the result type R is
arbitrary, so a body rendered as returning an Except (an unwinding body)
is covered as well. -/
theorem enter_runs_deferred_in_order (regs : List (Reg F J)) (r : R) :
    enter (fun s => (r, regs.foldl applyReg s)) = (r, regs.map regAction) ∧
    (∀ body : DeferScope F J → R × DeferScope F J,
      enter body = ((body { to_run := [] }).1, (body { to_run := [] }).2.to_run)) := by
  constructor
  · show (r, DeferScope.drop (regs.foldl applyReg { to_run := [] })) = (r, regs.map regAction)
    rw [show DeferScope.drop (regs.foldl applyReg { to_run := [] })
        = (regs.foldl applyReg ({ to_run := [] } : DeferScope F J)).to_run from rfl,
      foldl_applyReg_to_run]
    rfl
  · intro body
    rfl

/-- C7: Atom.store flips the index first and only then writes, into the
slot that the flipped index selects: the store equals a switch followed by
a write at the post-switch selected index, that index is the flip of the
pre-store index, and the published value sits in the selected slot right
after the write (load reads exactly the slot the write mutated); a load
running between the switch and the write of the very first store reads the
still-empty slot 1 and gets none, on which Atom::load's unwrap panics.
The claimed order — value fully written into the inactive slot before the
flip — is false of this code. -/
theorem atom_store_flips_before_write :
    Atom.load (Atom.switch (Atom.new (0 : Nat))) = none ∧
    (∀ (s : AtomState Nat) (v : Nat),
      Atom.store s v
          = Atom.writeSlot (Atom.switch s) (Atom.get_idx (Atom.switch s)) v ∧
      Atom.get_idx (Atom.switch s) = (Atom.get_idx s + 1) % 2 ∧
      Atom.load (Atom.store s v) = some v) := by
  refine ⟨rfl, ?_⟩
  intro s v
  refine ⟨rfl, ?_, ?_⟩
  · show ((s.current + 1) % 2 ^ 64) % 2 = (s.current % 2 + 1) % 2
    rw [Nat.mod_mod_of_dvd _ (dvd_pow_self 2 (by norm_num))]
    omega
  · rcases Nat.mod_two_eq_zero_or_one ((Atom.switch s).current) with h | h
    · simp [Atom.load, Atom.store, Atom.writeSlot, Atom.get_idx, AtomState.dataAt, h]
    · simp [Atom.load, Atom.store, Atom.writeSlot, Atom.get_idx, AtomState.dataAt, h]

/-- C8: in every reachable spinlock state: once read_only is set, lock
reports unavailable (share left the lock word permanently taken, so take's
CAS cannot succeed and the loop reaches the read-only check and returns
None); before the transition lock never reports unavailable — it acquires
at once when the lock is free and otherwise keeps spinning; no step ever
clears read_only; and share on a read-only lock takes the fast path,
without busy-waiting. -/
theorem spinlock_read_only_mode (s : SpinState) (hs : SpinReach s) :
    (s.read_only = true → Spinlock.lockOutcome s = LockOutcome.unavailable) ∧
    (s.read_only = false → s.locked = false →
        Spinlock.lockOutcome s = LockOutcome.acquired) ∧
    (s.read_only = false →
        Spinlock.lockOutcome s = LockOutcome.acquired ∨
        Spinlock.lockOutcome s = LockOutcome.spins) ∧
    (∀ s1 : SpinState, SpinStep s s1 → s.read_only = true → s1.read_only = true) ∧
    (s.read_only = true → Spinlock.shareSpins s = false) := by
  obtain ⟨hro, _, _⟩ := spinReach_inv hs
  refine ⟨?_, ?_, ?_, ?_, ?_⟩
  · intro h
    rcases hro h with ⟨hl, _⟩
    simp [Spinlock.lockOutcome, hl, h]
  · intro _ hfree
    simp [Spinlock.lockOutcome, hfree]
  · intro h
    by_cases hl : s.locked = false
    · left
      simp [Spinlock.lockOutcome, hl]
    · right
      simp [Spinlock.lockOutcome, hl, h]
  · intro s1 hstep h
    cases hstep with
    | lockAcq _ => exact h
    | unlock _ => exact h
    | shareFast _ => exact h
    | shareSlow _ _ => rfl
  · intro h
    simp [Spinlock.shareSpins, h]

/-- C8 witness: the state share() leaves behind is reachable, and lock
reports unavailable there. -/
theorem spinlock_read_only_mode_witness :
    Spinlock.lockOutcome { locked := true, read_only := true, guards := 0 }
      = LockOutcome.unavailable :=
  (spinlock_read_only_mode { locked := true, read_only := true, guards := 0 }
    (SpinReach.step SpinReach.init
      (SpinStep.shareSlow { locked := false, read_only := false, guards := 0 } rfl rfl))).1
    rfl

/-- C9 counterexample: after the value has been taken once, a second
Future.take returns none as an ordinary value and leaves the state
untouched — no fatal failure happens inside take. -/
theorem take_twice_silent :
    (Future.take (Future.take (FutureState.new 5 : FutureState Nat Nat)).1).2 = none ∧
    (Future.take (Future.take (FutureState.new 5 : FutureState Nat Nat)).1).1
      = (Future.take (FutureState.new 5 : FutureState Nat Nat)).1 := ⟨rfl, rfl⟩

/-- C9 amended: take on a resolved cell yields the value and leaves the
cell holding none — there is no distinct Moved marker; the emptied cell is
the very state of a never-resolved cell — and a second take returns none
silently; fatality arises only at call sites that unwrap the result, as
then() does (future.rs:216). -/
theorem take_once_semantics (v : T) :
    (Future.take (FutureState.new v : FutureState T C)).2 = some v ∧
    (Future.take (FutureState.new v : FutureState T C)).1
      = (FutureState.default : FutureState T C) ∧
    (Future.take (Future.take (FutureState.new v : FutureState T C)).1).2 = none :=
  ⟨rfl, rfl, rfl⟩

/-- C10: through the public interface each cell transitions Empty to Set
at most once: Promise.new creates the unique promise of its cell and set
consumes that promise by value, so every trace of public operations
resolves a given cell at most once; and the guarantee is ownership, not a
runtime check — set itself stores unconditionally into any state. -/
theorem single_assignment_by_ownership :
    (∀ (ops : List (ApiOp Nat)) (i : Nat), countSets ProgState.init ops i ≤ 1) ∧
    (∀ (s : FutureState Nat Nat) (v : Nat), ((Promise.set s v).1).value = some v) :=
  ⟨fun ops i => countSets_le_one ops ProgState.init i, fun _ _ => rfl⟩
